import Mathlib

/-!
# Uncertainty compounding on SE(3): `SE3cov.cpp`

A shallow embedding of `src/geometry/SE3cov.cpp` (class `mrob::SE3Cov`, the two
`brackets` helpers and `mrob::curly_wedge`).

* The Eigen types `Mat3`, `Mat6`, `Mat61` of `matrix_base.hpp` become Mathlib matrices
  and vectors over `Fin 3` / `Fin 6`.  The `double` entries are idealised as elements of
  an arbitrary field `R` (exact arithmetic); every definition is computable and can be
  evaluated at `R = ℚ`.
* Eigen's fixed-size corner views (`topLeftCorner<3,3>()` and friends) are embedded both as
  readers (`topLeftCorner`) and as writers (`setTopLeftCorner`), so that the sequences of
  block assignments in the source are kept as they are written.
* The base class `SE3` (`mrob/SE3.hpp`) is not part of the sources at hand.  Its members
  used here (`mul`, `adj`, default construction) are taken as a parameter `SE3Class`.
  `mrob::hat3` is likewise a parameter of `curly_wedge`; its standard form, the
  skew-symmetric generator `hat3`, is modelled from the specification.
* The covariance invariant (symmetric, positive semi-definite) is stated over a linearly
  ordered field as `IsSymmPSD`.
-/

namespace mrob

/-! ## Matrix types (`matrix_base.hpp`) -/

/-- Embeds `typedef Eigen::Matrix<double, 3,3> Mat3;` -/
abbrev Mat3 (R : Type) := Matrix (Fin 3) (Fin 3) R

/-- Embeds `typedef Eigen::Matrix<double, 6,6> Mat6;` -/
abbrev Mat6 (R : Type) := Matrix (Fin 6) (Fin 6) R

/-- Embeds `typedef Eigen::Matrix<double, 3,1> Mat31;` -/
abbrev Mat31 (R : Type) := Fin 3 → R

/-- Embeds `typedef Eigen::Matrix<double, 6,1> Mat61;` -/
abbrev Mat61 (R : Type) := Fin 6 → R

section Corners

variable {R : Type}

/-! ## Eigen block views -/

/-- Row/column index `k` of the leading 3x3 corner, seen as an index of the 6x6 matrix. -/
def lo (k : Fin 3) : Fin 6 := ⟨k.val, by omega⟩

/-- Row/column index `k` of the trailing 3x3 corner, seen as an index of the 6x6 matrix. -/
def hi (k : Fin 3) : Fin 6 := ⟨k.val + 3, by omega⟩

/-- Reading `M.topLeftCorner<3,3>()`. -/
def topLeftCorner (M : Mat6 R) : Mat3 R := Matrix.of fun i j => M (lo i) (lo j)

/-- Reading `M.topRightCorner<3,3>()`. -/
def topRightCorner (M : Mat6 R) : Mat3 R := Matrix.of fun i j => M (lo i) (hi j)

/-- Reading `M.bottomLeftCorner<3,3>()`. -/
def bottomLeftCorner (M : Mat6 R) : Mat3 R := Matrix.of fun i j => M (hi i) (lo j)

/-- Reading `M.bottomRightCorner<3,3>()`. -/
def bottomRightCorner (M : Mat6 R) : Mat3 R := Matrix.of fun i j => M (hi i) (hi j)

/-- The assignment `M.topLeftCorner<3,3>() = X;`: the matrix `M` afterwards. -/
def setTopLeftCorner (M : Mat6 R) (X : Mat3 R) : Mat6 R :=
  Matrix.of fun i j =>
    if h : i.val < 3 ∧ j.val < 3 then X ⟨i.val, h.1⟩ ⟨j.val, h.2⟩ else M i j

/-- The assignment `M.topRightCorner<3,3>() = X;`: the matrix `M` afterwards. -/
def setTopRightCorner (M : Mat6 R) (X : Mat3 R) : Mat6 R :=
  Matrix.of fun i j =>
    if h : i.val < 3 ∧ 3 ≤ j.val then X ⟨i.val, h.1⟩ ⟨j.val - 3, by omega⟩ else M i j

/-- The assignment `M.bottomLeftCorner<3,3>() = X;`: the matrix `M` afterwards. -/
def setBottomLeftCorner (M : Mat6 R) (X : Mat3 R) : Mat6 R :=
  Matrix.of fun i j =>
    if h : 3 ≤ i.val ∧ j.val < 3 then X ⟨i.val - 3, by omega⟩ ⟨j.val, h.2⟩ else M i j

/-- The assignment `M.bottomRightCorner<3,3>() = X;`: the matrix `M` afterwards. -/
def setBottomRightCorner (M : Mat6 R) (X : Mat3 R) : Mat6 R :=
  Matrix.of fun i j =>
    if h : 3 ≤ i.val ∧ 3 ≤ j.val then X ⟨i.val - 3, by omega⟩ ⟨j.val - 3, by omega⟩ else M i j

/-- Embeds `xi.head(3)`: the first three coefficients of a 6-vector. -/
def head3 (xi : Mat61 R) : Mat31 R := fun k => xi (lo k)

/-- Embeds `xi.tail(3)`: the last three coefficients of a 6-vector. -/
def tail3 (xi : Mat61 R) : Mat31 R := fun k => xi (hi k)

end Corners

section Code

variable {R : Type} [Field R]

/-! ## The bracket operators (`SE3cov.cpp`, lines 36-44) -/

/-- Embeds `Mat3 brackets(const Mat3& A)`: `-A.trace()*Mat3::Identity() + A`. -/
def brackets (A : Mat3 R) : Mat3 R :=
  (-A.trace) • (1 : Mat3 R) + A

/-- Embeds `Mat3 brackets(const Mat3& A, const Mat3& B)`:
`brackets(A)*brackets(B) + brackets(B*A)`. -/
def brackets2 (A B : Mat3 R) : Mat3 R :=
  brackets A * brackets B + brackets (B * A)

/-! ## The class `SE3Cov` -/

/-- The members of the base class `SE3` that `SE3Cov` calls, taken as a parameter:
`SE3::mul` (group composition), `SE3::adj` (the 6x6 adjoint matrix) and the default
constructor `SE3()` (the identity pose). -/
structure SE3Class (R : Type) (Pose : Type) where
  /-- Embeds `SE3::mul(rhs)`: the composition `this * rhs`. -/
  mul : Pose → Pose → Pose
  /-- Embeds `SE3::adj()`: the adjoint matrix of the pose. -/
  adj : Pose → Mat6 R
  /-- Embeds `SE3()`: the default-constructed pose. -/
  identity : Pose

/-- Embeds `class SE3Cov : public SE3` with the extra member `Mat6 covariance_`. -/
structure SE3Cov (Pose : Type) (R : Type) where
  /-- The base-class sub-object (`SE3(*this)`). -/
  T : Pose
  /-- Embeds `Mat6 covariance_`. -/
  covariance_ : Mat6 R

namespace SE3Cov

variable {Pose : Type}

/-- Embeds `SE3Cov::SE3Cov(void)`: `SE3(), covariance_(Mat6::Identity())`. -/
def defaultCtor (S : SE3Class R Pose) : SE3Cov Pose R := ⟨S.identity, 1⟩

/-- Embeds `Mat6 SE3Cov::cov(void) const`. -/
def cov (self : SE3Cov Pose R) : Mat6 R := self.covariance_

/-- Embeds `SE3Cov::compound_2nd_order(const SE3 &pose_increment, const Mat6 &increment_covariance)`. -/
def compound_2nd_order (S : SE3Class R Pose) (self : SE3Cov Pose R)
    (pose_increment : Pose) (increment_covariance : Mat6 R) : SE3Cov Pose R :=
  let adj : Mat6 R := S.adj self.T
  ⟨S.mul self.T pose_increment,
    self.covariance_ + adj * increment_covariance * adj.transpose⟩

/-- Embeds `SE3Cov::compound_2nd_order(const SE3Cov& pose)`. -/
def compound_2nd_order_SE3Cov (S : SE3Class R Pose) (self pose : SE3Cov Pose R) :
    SE3Cov Pose R :=
  compound_2nd_order S self pose.T pose.cov

/-- Embeds `SE3Cov::compound_4th_order(const SE3 &pose_increment, const Mat6 &increment_covariance)`,
statement by statement. -/
def compound_4th_order (S : SE3Class R Pose) (self : SE3Cov Pose R)
    (pose_increment : Pose) (increment_covariance : Mat6 R) : SE3Cov Pose R :=
  let sigma_1 : Mat6 R := self.covariance_
  let adj : Mat6 R := S.adj self.T
  let sigma_2 : Mat6 R := adj * increment_covariance * adj.transpose
  let A_1 : Mat6 R := 0
  let sigma_1_tt := topLeftCorner sigma_1
  let sigma_1_rr := bottomRightCorner sigma_1
  let sigma_1_rt := bottomLeftCorner sigma_1
  let sigma_1_tr := topRightCorner sigma_1
  let A_1 := setTopLeftCorner A_1 (brackets sigma_1_tt)
  let A_1 := setBottomLeftCorner A_1 (brackets (sigma_1_rt + sigma_1_tr))
  let A_1 := setBottomRightCorner A_1 (topLeftCorner A_1)
  let A_2 : Mat6 R := 0
  let sigma_2_tt := topLeftCorner sigma_2
  let sigma_2_rr := bottomRightCorner sigma_2
  let sigma_2_rt := bottomLeftCorner sigma_2
  let sigma_2_tr := topRightCorner sigma_2
  let A_2 := setTopLeftCorner A_2 (brackets sigma_2_tt)
  let A_2 := setBottomLeftCorner A_2 (brackets (sigma_2_rt + sigma_2_rt.transpose))
  let A_2 := setBottomRightCorner A_2 (topLeftCorner A_2)
  let B : Mat6 R := 0
  let B_rho_rho := brackets2 sigma_1_tt sigma_2_rr +
                   brackets2 sigma_1_tr sigma_2_rt +
                   brackets2 sigma_1_rt sigma_2_tr +
                   brackets2 sigma_1_rr sigma_2_tt
  let B_rho_phi := brackets2 sigma_1_tt sigma_2_tr +
                   brackets2 sigma_1_rt sigma_2_tt
  let B_phi_phi := brackets2 sigma_1_tt sigma_2_tt
  let B := setTopLeftCorner B B_phi_phi
  let B := setTopRightCorner B B_rho_phi.transpose
  let B := setBottomLeftCorner B B_rho_phi
  let B := setBottomRightCorner B B_rho_rho
  let tmp_cov : Mat6 R := sigma_1 + sigma_2 +
      (1 / 12 : R) • (A_1 * sigma_2 + sigma_2 * A_1.transpose + A_2 * sigma_1
        + sigma_1 * A_2.transpose) +
      (1 / 4 : R) • B
  ⟨S.mul self.T pose_increment, tmp_cov⟩

/-- Embeds `SE3Cov::compound_4th_order(const SE3Cov& pose)`. -/
def compound_4th_order_SE3Cov (S : SE3Class R Pose) (self pose : SE3Cov Pose R) :
    SE3Cov Pose R :=
  compound_4th_order S self pose.T pose.cov

/-- Embeds `SE3Cov SE3Cov::mul(const SE3Cov& rhs) const`. -/
def mul (S : SE3Class R Pose) (self rhs : SE3Cov Pose R) : SE3Cov Pose R :=
  compound_2nd_order_SE3Cov S self rhs

/-- Embeds `SE3Cov SE3Cov::operator*(const SE3Cov& rhs) const`. -/
def operator_mul (S : SE3Class R Pose) (self rhs : SE3Cov Pose R) : SE3Cov Pose R :=
  compound_2nd_order_SE3Cov S self rhs

end SE3Cov

/-! ## `mrob::curly_wedge` (`SE3cov.cpp`, lines 146-153) -/

/-- Embeds `Mat6 mrob::curly_wedge(const Mat61 &xi)`; the external `mrob::hat3` is the
parameter `hat3`. -/
def curly_wedge (hat3 : Mat31 R → Mat3 R) (xi : Mat61 R) : Mat6 R :=
  let result : Mat6 R := 0
  let result := setTopLeftCorner result (hat3 (head3 xi))
  let result := setBottomRightCorner result (hat3 (head3 xi))
  let result := setBottomLeftCorner result (hat3 (tail3 xi))
  result

/-! ## The intermediate matrices of `compound_4th_order` -/

/-- The local matrix `A_1` of `compound_4th_order` (lines 72-79) as a function of
`sigma_1`, with the source's three block assignments on the zero matrix. -/
def compound_4th_order_A_1 (sigma_1 : Mat6 R) : Mat6 R :=
  let A_1 : Mat6 R := 0
  let sigma_1_tt := topLeftCorner sigma_1
  let sigma_1_rt := bottomLeftCorner sigma_1
  let sigma_1_tr := topRightCorner sigma_1
  let A_1 := setTopLeftCorner A_1 (brackets sigma_1_tt)
  let A_1 := setBottomLeftCorner A_1 (brackets (sigma_1_rt + sigma_1_tr))
  let A_1 := setBottomRightCorner A_1 (topLeftCorner A_1)
  A_1

/-- The local matrix `A_2` of `compound_4th_order` (lines 81-88) as a function of the
transported covariance `sigma_2`. -/
def compound_4th_order_A_2 (sigma_2 : Mat6 R) : Mat6 R :=
  let A_2 : Mat6 R := 0
  let sigma_2_tt := topLeftCorner sigma_2
  let sigma_2_rt := bottomLeftCorner sigma_2
  let A_2 := setTopLeftCorner A_2 (brackets sigma_2_tt)
  let A_2 := setBottomLeftCorner A_2 (brackets (sigma_2_rt + sigma_2_rt.transpose))
  let A_2 := setBottomRightCorner A_2 (topLeftCorner A_2)
  A_2

/-- The local matrix `B` of `compound_4th_order` (lines 90-105) as a function of
`sigma_1` and the transported covariance `sigma_2`. -/
def compound_4th_order_B (sigma_1 sigma_2 : Mat6 R) : Mat6 R :=
  let sigma_1_tt := topLeftCorner sigma_1
  let sigma_1_rr := bottomRightCorner sigma_1
  let sigma_1_rt := bottomLeftCorner sigma_1
  let sigma_1_tr := topRightCorner sigma_1
  let sigma_2_tt := topLeftCorner sigma_2
  let sigma_2_rr := bottomRightCorner sigma_2
  let sigma_2_rt := bottomLeftCorner sigma_2
  let sigma_2_tr := topRightCorner sigma_2
  let B : Mat6 R := 0
  let B_rho_rho := brackets2 sigma_1_tt sigma_2_rr +
                   brackets2 sigma_1_tr sigma_2_rt +
                   brackets2 sigma_1_rt sigma_2_tr +
                   brackets2 sigma_1_rr sigma_2_tt
  let B_rho_phi := brackets2 sigma_1_tt sigma_2_tr +
                   brackets2 sigma_1_rt sigma_2_tt
  let B_phi_phi := brackets2 sigma_1_tt sigma_2_tt
  let B := setTopLeftCorner B B_phi_phi
  let B := setTopRightCorner B B_rho_phi.transpose
  let B := setBottomLeftCorner B B_rho_phi
  let B := setBottomRightCorner B B_rho_rho
  B

/-! ## The external `hat3` -/

/-- Modelled from the spec: `mrob::hat3`, declared with the rigid-transform classes that
are not among the sources, is the standard skew-symmetric generator ("hat") of a
3-vector, the matrix of `w ↦ v × w`. -/
def hat3 (v : Mat31 R) : Mat3 R :=
  !![0, -v 2, v 1;
     v 2, 0, -v 0;
     -v 1, v 0, 0]

/-! ## The formulas as the specification words them -/

/-- Assembly of a 6x6 matrix from its four 3x3 blocks `[[TL, TR], [BL, BR]]`. -/
def fromCorners (TL TR BL BR : Mat3 R) : Mat6 R :=
  Matrix.of fun i j =>
    if hi : i.val < 3 then
      if hj : j.val < 3 then TL ⟨i.val, hi⟩ ⟨j.val, hj⟩
      else TR ⟨i.val, hi⟩ ⟨j.val - 3, by omega⟩
    else
      if hj : j.val < 3 then BL ⟨i.val - 3, by omega⟩ ⟨j.val, hj⟩
      else BR ⟨i.val - 3, by omega⟩ ⟨j.val - 3, by omega⟩

/-- Specification, section 4.3 step 3: the correction matrix `A` of an operand `Sigma`
with blocks `[[Sigma_θθ, Sigma_θρ], [Sigma_ρθ, Sigma_ρρ]]`: top-left and bottom-right
`bracket1(block_θθ)`, bottom-left `bracket1(block_ρθ + block_θρ)`, top-right zero. -/
def spec_A (Sigma : Mat6 R) : Mat6 R :=
  fromCorners (brackets (topLeftCorner Sigma)) 0
    (brackets (bottomLeftCorner Sigma + topRightCorner Sigma))
    (brackets (topLeftCorner Sigma))

/-- Specification, section 4.3 step 4: `B_ρρ`. -/
def spec_B_rho_rho (Sigma1 Sigma2 : Mat6 R) : Mat3 R :=
  brackets2 (topLeftCorner Sigma1) (bottomRightCorner Sigma2) +
  brackets2 (topRightCorner Sigma1) (bottomLeftCorner Sigma2) +
  brackets2 (bottomLeftCorner Sigma1) (topRightCorner Sigma2) +
  brackets2 (bottomRightCorner Sigma1) (topLeftCorner Sigma2)

/-- Specification, section 4.3 step 4: `B_ρφ`. -/
def spec_B_rho_phi (Sigma1 Sigma2 : Mat6 R) : Mat3 R :=
  brackets2 (topLeftCorner Sigma1) (topRightCorner Sigma2) +
  brackets2 (bottomLeftCorner Sigma1) (topLeftCorner Sigma2)

/-- Specification, section 4.3 step 4: `B_φφ`. -/
def spec_B_phi_phi (Sigma1 Sigma2 : Mat6 R) : Mat3 R :=
  brackets2 (topLeftCorner Sigma1) (topLeftCorner Sigma2)

/-- Specification, section 4.3 step 4: `B = [[B_φφ, B_ρφᵀ], [B_ρφ, B_ρρ]]`. -/
def spec_B (Sigma1 Sigma2 : Mat6 R) : Mat6 R :=
  fromCorners (spec_B_phi_phi Sigma1 Sigma2) (spec_B_rho_phi Sigma1 Sigma2).transpose
    (spec_B_rho_phi Sigma1 Sigma2) (spec_B_rho_rho Sigma1 Sigma2)

/-- Specification, section 4.3 steps 1 and 5: the fourth-order covariance in terms of the
adjoint matrix `Adj` of the current pose, the current covariance `Sigma1` and the
increment covariance `Sigma2`. -/
def spec_cov_4th_order (Adj Sigma1 Sigma2 : Mat6 R) : Mat6 R :=
  let Sigma2t : Mat6 R := Adj * Sigma2 * Adj.transpose
  Sigma1 + Sigma2t +
    (1 / 12 : R) • (spec_A Sigma1 * Sigma2t + Sigma2t * (spec_A Sigma1).transpose
      + spec_A Sigma2t * Sigma1 + Sigma1 * (spec_A Sigma2t).transpose) +
    (1 / 4 : R) • spec_B Sigma1 Sigma2t

/-! ## Block form of the source's computation -/

/-- The matrix `A_2` of `compound_4th_order` (lines 81-88) written as one block assembly of
the transported covariance `sigma_2`: its bottom-left block is
`brackets(sigma_2_rt + sigma_2_rt.transpose())`. -/
def blocks_A_2 (sigma_2 : Mat6 R) : Mat6 R :=
  fromCorners (brackets (topLeftCorner sigma_2)) 0
    (brackets (bottomLeftCorner sigma_2 + (bottomLeftCorner sigma_2).transpose))
    (brackets (topLeftCorner sigma_2))

/-- The value `tmp_cov` of `compound_4th_order` (lines 107-109) as a function of `sigma_1`
and the transported `sigma_2`, with `A_1`, `A_2` and `B` written as block assemblies. -/
def blocks_tmp_cov (sigma_1 sigma_2 : Mat6 R) : Mat6 R :=
  sigma_1 + sigma_2 +
    (1 / 12 : R) • (spec_A sigma_1 * sigma_2 + sigma_2 * (spec_A sigma_1).transpose
      + blocks_A_2 sigma_2 * sigma_1 + sigma_1 * (blocks_A_2 sigma_2).transpose) +
    (1 / 4 : R) • spec_B sigma_1 sigma_2

/-! ## A concrete instance for evaluation -/

/-- A sample implementation of the `SE3` interface over `ℚ`, used to evaluate the
definitions on concrete inputs: a pose is represented by its own 6x6 adjoint matrix,
composition is the matrix product and the default pose is the identity matrix. -/
def sampleSE3 : SE3Class ℚ (Mat6 ℚ) where
  mul := fun a b => a * b
  adj := fun a => a
  identity := 1

/-- A sample symmetric covariance over `ℚ`: `diag(0.01, 0.01, 0.01, 0.04, 0.04, 0.04)`. -/
def sampleCov : Mat6 ℚ :=
  Matrix.diagonal ![1 / 100, 1 / 100, 1 / 100, 1 / 25, 1 / 25, 1 / 25]

/-- A sample pose of `sampleSE3` (given by its adjoint matrix): a quarter turn about the
third axis together with a unit translation along the first axis. -/
def samplePose : Mat6 ℚ :=
  !![0, -1, 0, 0, 0, 0;
     1, 0, 0, 0, 0, 0;
     0, 0, 1, 0, 0, 0;
     0, 0, 0, 0, -1, 0;
     0, 0, -1, 1, 0, 0;
     1, 0, 0, 0, 0, 1]

end Code

section Invariant

variable {K : Type} [LinearOrderedField K]

/-! ## The covariance invariant of the data model -/

/-- The invariant that `SE3cov.hpp` and the specification (section 3) ask of
`covariance_`: the matrix is symmetric and positive semi-definite, that is
`xᵀ M x ≥ 0` for every 6-vector `x`. -/
def IsSymmPSD (M : Mat6 K) : Prop :=
  M.transpose = M ∧ ∀ x : Mat61 K, 0 ≤ Matrix.dotProduct x (M.mulVec x)

end Invariant

/-! # Lemmas and theorems -/

section Lemmas

variable {R : Type}

/-! ## Block bookkeeping -/

theorem fin6_lo_or_hi (i : Fin 6) : (∃ k : Fin 3, i = lo k) ∨ (∃ k : Fin 3, i = hi k) := by
  by_cases h : i.val < 3
  · exact Or.inl ⟨⟨i.val, h⟩, Fin.ext rfl⟩
  · refine Or.inr ⟨⟨i.val - 3, by omega⟩, Fin.ext ?_⟩
    simp only [hi]
    omega

theorem Mat6_ext_corners {M N : Mat6 R}
    (h1 : topLeftCorner M = topLeftCorner N) (h2 : topRightCorner M = topRightCorner N)
    (h3 : bottomLeftCorner M = bottomLeftCorner N)
    (h4 : bottomRightCorner M = bottomRightCorner N) : M = N := by
  ext i j
  rcases fin6_lo_or_hi i with ⟨a, rfl⟩ | ⟨a, rfl⟩ <;>
    rcases fin6_lo_or_hi j with ⟨b, rfl⟩ | ⟨b, rfl⟩
  · exact congrFun (congrFun h1 a) b
  · exact congrFun (congrFun h2 a) b
  · exact congrFun (congrFun h3 a) b
  · exact congrFun (congrFun h4 a) b

@[simp] theorem topLeftCorner_fromCorners (X Y Z W : Mat3 R) :
    topLeftCorner (fromCorners X Y Z W) = X := by
  ext i j
  simp [topLeftCorner, fromCorners, lo]

@[simp] theorem topRightCorner_fromCorners (X Y Z W : Mat3 R) :
    topRightCorner (fromCorners X Y Z W) = Y := by
  ext i j
  simp [topRightCorner, fromCorners, lo, hi]

@[simp] theorem bottomLeftCorner_fromCorners (X Y Z W : Mat3 R) :
    bottomLeftCorner (fromCorners X Y Z W) = Z := by
  ext i j
  simp [bottomLeftCorner, fromCorners, lo, hi]

@[simp] theorem bottomRightCorner_fromCorners (X Y Z W : Mat3 R) :
    bottomRightCorner (fromCorners X Y Z W) = W := by
  ext i j
  simp [bottomRightCorner, fromCorners, hi]

end Lemmas

section Lemmas2

variable {R : Type}

theorem assemble_lower (X Y : Mat3 R) [Zero R] :
    setBottomRightCorner (setBottomLeftCorner (setTopLeftCorner 0 X) Y)
      (topLeftCorner (setBottomLeftCorner (setTopLeftCorner 0 X) Y)) = fromCorners X 0 Y X := by
  apply Mat6_ext_corners <;> ext i j <;> fin_cases i <;> fin_cases j <;> rfl

theorem assemble_full (X Y Z W : Mat3 R) [Zero R] :
    setBottomRightCorner (setBottomLeftCorner (setTopRightCorner (setTopLeftCorner 0 X) Y) Z) W
      = fromCorners X Y Z W := by
  apply Mat6_ext_corners <;> ext i j <;> fin_cases i <;> fin_cases j <;> rfl

theorem assemble_wedge (X Z : Mat3 R) [Zero R] :
    setBottomLeftCorner (setBottomRightCorner (setTopLeftCorner 0 X) X) Z
      = fromCorners X 0 Z X := by
  apply Mat6_ext_corners <;> ext i j <;> fin_cases i <;> fin_cases j <;> rfl

theorem transpose_fromCorners (X Y Z W : Mat3 R) :
    (fromCorners X Y Z W).transpose
      = fromCorners X.transpose Z.transpose Y.transpose W.transpose := by
  apply Mat6_ext_corners <;> ext i j <;>
    simp [topLeftCorner, topRightCorner, bottomLeftCorner, bottomRightCorner,
      fromCorners, lo, hi, Matrix.transpose_apply]

theorem topLeftCorner_transpose (M : Mat6 R) :
    topLeftCorner M.transpose = (topLeftCorner M).transpose := rfl

theorem topRightCorner_transpose (M : Mat6 R) :
    topRightCorner M.transpose = (bottomLeftCorner M).transpose := rfl

theorem bottomLeftCorner_transpose (M : Mat6 R) :
    bottomLeftCorner M.transpose = (topRightCorner M).transpose := rfl

theorem bottomRightCorner_transpose (M : Mat6 R) :
    bottomRightCorner M.transpose = (bottomRightCorner M).transpose := rfl

theorem topLeftCorner_symm {M : Mat6 R} (h : M.transpose = M) :
    (topLeftCorner M).transpose = topLeftCorner M := by
  rw [← topLeftCorner_transpose, h]

theorem bottomRightCorner_symm {M : Mat6 R} (h : M.transpose = M) :
    (bottomRightCorner M).transpose = bottomRightCorner M := by
  rw [← bottomRightCorner_transpose, h]

theorem bottomLeftCorner_symm {M : Mat6 R} (h : M.transpose = M) :
    (bottomLeftCorner M).transpose = topRightCorner M := by
  rw [← topRightCorner_transpose, h]

theorem topRightCorner_symm {M : Mat6 R} (h : M.transpose = M) :
    (topRightCorner M).transpose = bottomLeftCorner M := by
  rw [← bottomLeftCorner_transpose, h]

end Lemmas2

section BracketLemmas

variable {R : Type} [Field R]

theorem brackets_add (A B : Mat3 R) : brackets (A + B) = brackets A + brackets B := by
  simp only [brackets, Matrix.trace_add, neg_add, add_smul]
  abel

theorem brackets_smul (a : R) (A : Mat3 R) : brackets (a • A) = a • brackets A := by
  simp only [brackets, Matrix.trace_smul, smul_add, smul_smul, smul_eq_mul, mul_neg]

theorem brackets_zero : brackets (0 : Mat3 R) = 0 := by
  simp [brackets]

theorem brackets_transpose (A : Mat3 R) : (brackets A).transpose = brackets A.transpose := by
  simp [brackets, Matrix.transpose_add, Matrix.transpose_smul, Matrix.trace_transpose]

theorem brackets2_expand (A B : Mat3 R) :
    brackets2 A B = A * B + B * A - B.trace • A - A.trace • B
      + (A.trace * B.trace - (A * B).trace) • (1 : Mat3 R) := by
  simp only [brackets2, brackets, Matrix.trace_mul_comm B A]
  simp only [Matrix.add_mul, Matrix.mul_add, Matrix.smul_mul, Matrix.mul_smul,
    Matrix.one_mul, Matrix.mul_one, Matrix.mul_neg, Matrix.neg_mul, smul_smul, sub_smul,
    neg_smul, smul_neg, neg_neg, smul_add]
  rw [mul_comm B.trace A.trace]
  abel

theorem brackets2_comm (A B : Mat3 R) : brackets2 A B = brackets2 B A := by
  rw [brackets2_expand, brackets2_expand, Matrix.trace_mul_comm B A, mul_comm B.trace A.trace]
  abel

theorem brackets2_transpose (A B : Mat3 R) :
    (brackets2 A B).transpose = brackets2 A.transpose B.transpose := by
  rw [brackets2_comm A.transpose B.transpose]
  simp only [brackets2, Matrix.transpose_add, Matrix.transpose_mul, brackets_transpose]

theorem brackets2_add_left (A C B : Mat3 R) :
    brackets2 (A + C) B = brackets2 A B + brackets2 C B := by
  simp only [brackets2, brackets_add, Matrix.add_mul, Matrix.mul_add]
  abel

theorem brackets2_smul_left (a : R) (A B : Mat3 R) :
    brackets2 (a • A) B = a • brackets2 A B := by
  simp only [brackets2, brackets_smul, Matrix.smul_mul, Matrix.mul_smul, smul_add]

theorem brackets2_add_right (A B C : Mat3 R) :
    brackets2 A (B + C) = brackets2 A B + brackets2 A C := by
  rw [brackets2_comm, brackets2_add_left, brackets2_comm B, brackets2_comm C]

theorem brackets2_smul_right (a : R) (A B : Mat3 R) :
    brackets2 A (a • B) = a • brackets2 A B := by
  rw [brackets2_comm, brackets2_smul_left, brackets2_comm B]

theorem brackets2_zero_right (A : Mat3 R) : brackets2 A 0 = 0 := by
  simp [brackets2, brackets_zero]

theorem brackets2_zero_left (A : Mat3 R) : brackets2 0 A = 0 := by
  simp [brackets2, brackets_zero]

end BracketLemmas

section CornerAlgebra

variable {R : Type} [Field R]

theorem topLeftCorner_smul (a : R) (M : Mat6 R) :
    topLeftCorner (a • M) = a • topLeftCorner M := rfl

theorem topRightCorner_smul (a : R) (M : Mat6 R) :
    topRightCorner (a • M) = a • topRightCorner M := rfl

theorem bottomLeftCorner_smul (a : R) (M : Mat6 R) :
    bottomLeftCorner (a • M) = a • bottomLeftCorner M := rfl

theorem bottomRightCorner_smul (a : R) (M : Mat6 R) :
    bottomRightCorner (a • M) = a • bottomRightCorner M := rfl

theorem topLeftCorner_zero : topLeftCorner (0 : Mat6 R) = 0 := rfl

theorem topRightCorner_zero : topRightCorner (0 : Mat6 R) = 0 := rfl

theorem bottomLeftCorner_zero : bottomLeftCorner (0 : Mat6 R) = 0 := rfl

theorem bottomRightCorner_zero : bottomRightCorner (0 : Mat6 R) = 0 := rfl

theorem fromCorners_smul (a : R) (X Y Z W : Mat3 R) :
    fromCorners (a • X) (a • Y) (a • Z) (a • W) = a • fromCorners X Y Z W := by
  apply Mat6_ext_corners <;>
    simp only [topLeftCorner_smul, topRightCorner_smul, bottomLeftCorner_smul,
      bottomRightCorner_smul, topLeftCorner_fromCorners, topRightCorner_fromCorners,
      bottomLeftCorner_fromCorners, bottomRightCorner_fromCorners]

theorem fromCorners_zero : fromCorners (0 : Mat3 R) 0 0 0 = 0 := by
  apply Mat6_ext_corners <;>
    simp only [topLeftCorner_zero, topRightCorner_zero, bottomLeftCorner_zero,
      bottomRightCorner_zero, topLeftCorner_fromCorners, topRightCorner_fromCorners,
      bottomLeftCorner_fromCorners, bottomRightCorner_fromCorners]

/-- The covariance computed by `compound_4th_order`, with the three sequences of block
assignments (`A_1`, `A_2`, `B`) collapsed into block assemblies. -/
theorem compound_4th_order_cov_blocks {Pose : Type} (S : SE3Class R Pose)
    (self : SE3Cov Pose R) (T2 : Pose) (Sigma2 : Mat6 R) :
    (SE3Cov.compound_4th_order S self T2 Sigma2).covariance_ =
      blocks_tmp_cov self.covariance_ (S.adj self.T * Sigma2 * (S.adj self.T).transpose) := by
  simp only [SE3Cov.compound_4th_order, assemble_lower, assemble_full, blocks_tmp_cov,
    blocks_A_2, spec_A, spec_B, spec_B_phi_phi, spec_B_rho_phi, spec_B_rho_rho]

end CornerAlgebra

section SymLemmas

variable {R : Type} [Field R]

theorem transport_symm (Adj Sigma2 : Mat6 R) (h : Sigma2.transpose = Sigma2) :
    (Adj * Sigma2 * Adj.transpose).transpose = Adj * Sigma2 * Adj.transpose := by
  rw [Matrix.transpose_mul, Matrix.transpose_mul, Matrix.transpose_transpose, h,
    Matrix.mul_assoc]

theorem blocks_A_2_eq_spec_A {M : Mat6 R} (h : M.transpose = M) :
    blocks_A_2 M = spec_A M := by
  rw [blocks_A_2, spec_A, bottomLeftCorner_symm h]

theorem spec_B_symm {M N : Mat6 R} (hM : M.transpose = M) (hN : N.transpose = N) :
    (spec_B M N).transpose = spec_B M N := by
  have e1 : (spec_B_phi_phi M N).transpose = spec_B_phi_phi M N := by
    rw [spec_B_phi_phi, brackets2_transpose, topLeftCorner_symm hM, topLeftCorner_symm hN]
  have e2 : (spec_B_rho_rho M N).transpose = spec_B_rho_rho M N := by
    simp only [spec_B_rho_rho, Matrix.transpose_add, brackets2_transpose,
      topLeftCorner_symm hM, topLeftCorner_symm hN, bottomRightCorner_symm hM,
      bottomRightCorner_symm hN, bottomLeftCorner_symm hM, bottomLeftCorner_symm hN,
      topRightCorner_symm hM, topRightCorner_symm hN]
    abel
  rw [spec_B, transpose_fromCorners, Matrix.transpose_transpose, e1, e2]

theorem spec_A_smul (a : R) (M : Mat6 R) : spec_A (a • M) = a • spec_A M := by
  simp only [spec_A, topLeftCorner_smul, bottomLeftCorner_smul, topRightCorner_smul,
    ← smul_add, brackets_smul, ← fromCorners_smul, smul_zero]

theorem blocks_A_2_smul (a : R) (M : Mat6 R) : blocks_A_2 (a • M) = a • blocks_A_2 M := by
  simp only [blocks_A_2, topLeftCorner_smul, bottomLeftCorner_smul, Matrix.transpose_smul,
    ← smul_add, brackets_smul, ← fromCorners_smul, smul_zero]

theorem spec_B_smul_smul (a : R) (M N : Mat6 R) :
    spec_B (a • M) (a • N) = (a * a) • spec_B M N := by
  simp only [spec_B, spec_B_phi_phi, spec_B_rho_phi, spec_B_rho_rho, topLeftCorner_smul,
    bottomLeftCorner_smul, topRightCorner_smul, bottomRightCorner_smul, brackets2_smul_left,
    brackets2_smul_right, smul_smul, ← smul_add]
  rw [Matrix.transpose_smul, fromCorners_smul]

theorem spec_A_zero : spec_A (0 : Mat6 R) = 0 := by
  simp only [spec_A, topLeftCorner_zero, bottomLeftCorner_zero, topRightCorner_zero,
    add_zero, brackets_zero, fromCorners_zero]

theorem blocks_A_2_zero : blocks_A_2 (0 : Mat6 R) = 0 := by
  simp only [blocks_A_2, topLeftCorner_zero, bottomLeftCorner_zero, Matrix.transpose_zero,
    add_zero, brackets_zero, fromCorners_zero]

theorem spec_B_zero_right (M : Mat6 R) : spec_B M 0 = 0 := by
  simp only [spec_B, spec_B_phi_phi, spec_B_rho_phi, spec_B_rho_rho, topLeftCorner_zero,
    bottomLeftCorner_zero, topRightCorner_zero, bottomRightCorner_zero, brackets2_zero_right,
    add_zero, Matrix.transpose_zero, fromCorners_zero]

theorem compound_2nd_order_cov_blocks {Pose : Type} (S : SE3Class R Pose)
    (self : SE3Cov Pose R) (T2 : Pose) (Sigma2 : Mat6 R) :
    (SE3Cov.compound_2nd_order S self T2 Sigma2).covariance_ =
      self.covariance_ + S.adj self.T * Sigma2 * (S.adj self.T).transpose := rfl

theorem transport_smul (a : R) (Adj Sigma2 : Mat6 R) :
    Adj * (a • Sigma2) * Adj.transpose = a • (Adj * Sigma2 * Adj.transpose) := by
  rw [Matrix.mul_smul, Matrix.smul_mul]

theorem blocks_tmp_cov_correction_smul (a : R) (M N : Mat6 R) :
    blocks_tmp_cov (a • M) (a • N) - (a • M + a • N)
      = (a ^ 2) • (blocks_tmp_cov M N - (M + N)) := by
  simp only [blocks_tmp_cov, spec_A_smul, blocks_A_2_smul, spec_B_smul_smul,
    Matrix.smul_mul, Matrix.mul_smul, Matrix.transpose_smul, smul_smul]
  module

theorem blocks_tmp_cov_zero_right (M : Mat6 R) : blocks_tmp_cov M 0 = M := by
  simp only [blocks_tmp_cov, blocks_A_2_zero, spec_B_zero_right, Matrix.mul_zero,
    Matrix.zero_mul, Matrix.transpose_zero, add_zero, smul_zero]

end SymLemmas

section Claims

variable {R : Type} [Field R] {Pose : Type}

open SE3Cov

/-- C1. For a symmetric increment covariance `Sigma2`, the covariance returned by
`compound_4th_order` on `(T1, Sigma1)` is the specification's
`Σ1 + Σ2' + 1/12·(A1·Σ2' + Σ2'·A1ᵀ + A2·Σ1 + Σ1·A2ᵀ) + 1/4·B` with
`Σ2' = Adj(T1)·Σ2·Adj(T1)ᵀ`, both `A1` and `A2` built by the one construction `spec_A`
and `B` assembled as in step 4. -/
theorem compound_4th_order_covariance_eq_spec (S : SE3Class R Pose) (T1 : Pose)
    (Sigma1 : Mat6 R) (T2 : Pose) (Sigma2 : Mat6 R) (hSigma2 : Sigma2.transpose = Sigma2) :
    (compound_4th_order S ⟨T1, Sigma1⟩ T2 Sigma2).covariance_
      = spec_cov_4th_order (S.adj T1) Sigma1 Sigma2 := by
  rw [compound_4th_order_cov_blocks, blocks_tmp_cov, spec_cov_4th_order,
    blocks_A_2_eq_spec_A (transport_symm (S.adj T1) Sigma2 hSigma2)]

/-- C2. `compound_2nd_order` on `(T1, Sigma1)` returns the covariance
`Sigma1 + Adj(T1) * Sigma2 * Adj(T1)ᵀ`, the adjoint being that of the current pose `T1`. -/
theorem compound_2nd_order_covariance (S : SE3Class R Pose) (T1 : Pose)
    (Sigma1 : Mat6 R) (T2 : Pose) (Sigma2 : Mat6 R) :
    (compound_2nd_order S ⟨T1, Sigma1⟩ T2 Sigma2).covariance_
      = Sigma1 + S.adj T1 * Sigma2 * (S.adj T1).transpose := by
  rfl

/-- C3. Symmetry preservation: for symmetric `Sigma1` and `Sigma2` the covariances returned
by `compound_2nd_order` and by `compound_4th_order` are symmetric. -/
theorem compound_covariance_symmetric (S : SE3Class R Pose) (T1 : Pose)
    (Sigma1 : Mat6 R) (T2 : Pose) (Sigma2 : Mat6 R)
    (hSigma1 : Sigma1.transpose = Sigma1) (hSigma2 : Sigma2.transpose = Sigma2) :
    ((compound_2nd_order S ⟨T1, Sigma1⟩ T2 Sigma2).covariance_).transpose
        = (compound_2nd_order S ⟨T1, Sigma1⟩ T2 Sigma2).covariance_ ∧
    ((compound_4th_order S ⟨T1, Sigma1⟩ T2 Sigma2).covariance_).transpose
        = (compound_4th_order S ⟨T1, Sigma1⟩ T2 Sigma2).covariance_ := by
  have h2 := transport_symm (S.adj T1) Sigma2 hSigma2
  constructor
  · show (Sigma1 + S.adj T1 * Sigma2 * (S.adj T1).transpose).transpose = _
    rw [Matrix.transpose_add, hSigma1, h2]
    rfl
  · rw [compound_4th_order_cov_blocks]
    simp only [blocks_tmp_cov, Matrix.transpose_add, Matrix.transpose_smul,
      Matrix.transpose_mul, Matrix.transpose_transpose, hSigma1, h2,
      spec_B_symm hSigma1 h2]
    abel_nf

end Claims

section Claims2

variable {R : Type} [Field R] {Pose : Type}

open SE3Cov

/-- C4. Small-covariance convergence: the difference between the fourth-order and the
second-order covariance at `(ε • S1, ε • S2)` is `ε ^ 2` times that difference at
`(S1, S2)`. -/
theorem fourth_order_correction_homogeneous (S : SE3Class R Pose) (T1 T2 : Pose)
    (S1 S2 : Mat6 R) (ε : R) :
    (compound_4th_order S ⟨T1, ε • S1⟩ T2 (ε • S2)).covariance_
        - (compound_2nd_order S ⟨T1, ε • S1⟩ T2 (ε • S2)).covariance_
      = (ε ^ 2) • ((compound_4th_order S ⟨T1, S1⟩ T2 S2).covariance_
          - (compound_2nd_order S ⟨T1, S1⟩ T2 S2).covariance_) := by
  simp only [compound_4th_order_cov_blocks, compound_2nd_order_cov_blocks, transport_smul,
    blocks_tmp_cov_correction_smul]

/-- C5. Identity absorption: with the zero increment covariance both compounding
operations return the covariance `Sigma1` whatever the increment pose `T2` is, and when
the increment pose `e` satisfies `compose(T1, e) = T1` the returned pose is `T1`. -/
theorem identity_absorption (S : SE3Class R Pose) (T1 : Pose) (Sigma1 : Mat6 R)
    (T2 e : Pose) :
    (compound_2nd_order S ⟨T1, Sigma1⟩ T2 0).covariance_ = Sigma1 ∧
    (compound_4th_order S ⟨T1, Sigma1⟩ T2 0).covariance_ = Sigma1 ∧
    (S.mul T1 e = T1 →
      (compound_2nd_order S ⟨T1, Sigma1⟩ e 0).T = T1 ∧
      (compound_4th_order S ⟨T1, Sigma1⟩ e 0).T = T1) := by
  refine ⟨?_, ?_, fun h => ⟨h, h⟩⟩
  · rw [compound_2nd_order_cov_blocks, Matrix.mul_zero, Matrix.zero_mul, add_zero]
  · rw [compound_4th_order_cov_blocks, Matrix.mul_zero, Matrix.zero_mul,
      blocks_tmp_cov_zero_right]

/-- C6. Pose composition: the pose returned by `compound_2nd_order` and the pose returned
by `compound_4th_order` are both `compose(T1, T2)`, whatever the covariances are. -/
theorem compound_pose_eq_mul (S : SE3Class R Pose) (T1 T2 : Pose)
    (Sigma1 Sigma2 Sigma1' Sigma2' : Mat6 R) :
    (compound_2nd_order S ⟨T1, Sigma1⟩ T2 Sigma2).T = S.mul T1 T2 ∧
    (compound_4th_order S ⟨T1, Sigma1'⟩ T2 Sigma2').T = S.mul T1 T2 :=
  ⟨rfl, rfl⟩

/-- C7. Bracket bilinearity: the two-argument `brackets` is linear in each argument. -/
theorem brackets2_bilinear (A A' B B' : Mat3 R) (a b : R) :
    brackets2 (a • A + b • A') B = a • brackets2 A B + b • brackets2 A' B ∧
    brackets2 A (a • B + b • B') = a • brackets2 A B + b • brackets2 A B' := by
  constructor
  · rw [brackets2_add_left, brackets2_smul_left, brackets2_smul_left]
  · rw [brackets2_add_right, brackets2_smul_right, brackets2_smul_right]

/-- C8. Bracket linearity: the one-argument `brackets` is linear and maps zero to zero. -/
theorem brackets_linear (A B : Mat3 R) (a b : R) :
    brackets (a • A + b • B) = a • brackets A + b • brackets B ∧
    brackets (0 : Mat3 R) = 0 := by
  constructor
  · rw [brackets_add, brackets_smul, brackets_smul]
  · exact brackets_zero

/-- C9. Curly-wedge structure: for `ξ = (θ, ρ)` the top-left and bottom-right blocks of
`curly_wedge ξ` are `hat3 θ`, the bottom-left block is `hat3 ρ` and the top-right block is
zero. -/
theorem curly_wedge_structure (hat3 : Mat31 R → Mat3 R) (xi : Mat61 R) :
    topLeftCorner (curly_wedge hat3 xi) = hat3 ![xi 0, xi 1, xi 2] ∧
    bottomRightCorner (curly_wedge hat3 xi) = hat3 ![xi 0, xi 1, xi 2] ∧
    bottomLeftCorner (curly_wedge hat3 xi) = hat3 ![xi 3, xi 4, xi 5] ∧
    topRightCorner (curly_wedge hat3 xi) = 0 := by
  have hh : head3 xi = ![xi 0, xi 1, xi 2] := by
    funext k; fin_cases k <;> rfl
  have ht : tail3 xi = ![xi 3, xi 4, xi 5] := by
    funext k; fin_cases k <;> rfl
  have hw : curly_wedge hat3 xi
      = fromCorners (hat3 ![xi 0, xi 1, xi 2]) 0 (hat3 ![xi 3, xi 4, xi 5])
          (hat3 ![xi 0, xi 1, xi 2]) := by
    simp only [curly_wedge, assemble_wedge, hh, ht]
  rw [hw]
  simp only [topLeftCorner_fromCorners, bottomRightCorner_fromCorners,
    bottomLeftCorner_fromCorners, topRightCorner_fromCorners, and_self]

/-- With a zero increment covariance the second-order and the fourth-order compounding
return the same pose and the same covariance. -/
theorem compound_orders_agree_of_zero_cov (S : SE3Class R Pose) (P : SE3Cov Pose R)
    (T2 : Pose) :
    compound_2nd_order_SE3Cov S P ⟨T2, 0⟩ = compound_4th_order_SE3Cov S P ⟨T2, 0⟩ := by
  have hT : (compound_2nd_order_SE3Cov S P ⟨T2, 0⟩).T
      = (compound_4th_order_SE3Cov S P ⟨T2, 0⟩).T := rfl
  have hc : (compound_2nd_order_SE3Cov S P ⟨T2, 0⟩).covariance_
      = (compound_4th_order_SE3Cov S P ⟨T2, 0⟩).covariance_ := by
    simp only [compound_2nd_order_SE3Cov, compound_4th_order_SE3Cov, cov,
      compound_4th_order_cov_blocks, compound_2nd_order_cov_blocks, Matrix.mul_zero,
      Matrix.zero_mul, add_zero, blocks_tmp_cov_zero_right]
  revert hT hc
  generalize compound_2nd_order_SE3Cov S P ⟨T2, 0⟩ = X
  generalize compound_4th_order_SE3Cov S P ⟨T2, 0⟩ = Y
  intro hT hc
  cases X
  cases Y
  simp only at hT hc
  rw [hT, hc]

/-- C10, as amended. Default compounding is second-order: for every `P` and `Q`, `mul` and
`operator*` return exactly the result of `compound_2nd_order(Q)`.  This is not the
fourth-order operation, from whose result theirs differs at `P = Q = (1, I)`; but the two
results do coincide on some inputs: whenever the covariance of `Q` is zero, `mul` and
`operator*` return what `compound_4th_order(Q)` returns. -/
theorem mul_eq_compound_2nd_order (S : SE3Class R Pose) (P Q : SE3Cov Pose R) (T2 : Pose) :
    mul S P Q = compound_2nd_order_SE3Cov S P Q ∧
    operator_mul S P Q = compound_2nd_order_SE3Cov S P Q ∧
    mul sampleSE3 ⟨1, 1⟩ ⟨1, 1⟩ ≠ compound_4th_order_SE3Cov sampleSE3 ⟨1, 1⟩ ⟨1, 1⟩ ∧
    operator_mul sampleSE3 ⟨1, 1⟩ ⟨1, 1⟩
      ≠ compound_4th_order_SE3Cov sampleSE3 ⟨1, 1⟩ ⟨1, 1⟩ ∧
    mul S P ⟨T2, 0⟩ = compound_4th_order_SE3Cov S P ⟨T2, 0⟩ ∧
    operator_mul S P ⟨T2, 0⟩ = compound_4th_order_SE3Cov S P ⟨T2, 0⟩ := by
  have key : (compound_2nd_order_SE3Cov sampleSE3 ⟨1, 1⟩ ⟨1, 1⟩ : SE3Cov (Mat6 ℚ) ℚ)
      ≠ compound_4th_order_SE3Cov sampleSE3 ⟨1, 1⟩ ⟨1, 1⟩ := by
    intro h
    have h00 := congrArg (fun X : SE3Cov (Mat6 ℚ) ℚ => X.covariance_ 0 0) h
    simp only [compound_2nd_order_SE3Cov, compound_4th_order_SE3Cov,
      compound_4th_order_cov_blocks, compound_2nd_order_cov_blocks] at h00
    simp [blocks_tmp_cov, sampleSE3, cov, spec_A, blocks_A_2, spec_B, spec_B_phi_phi,
      spec_B_rho_phi, spec_B_rho_rho, fromCorners, brackets2, brackets, topLeftCorner,
      topRightCorner, bottomLeftCorner, bottomRightCorner, lo, hi, Matrix.trace,
      Fin.sum_univ_three, Matrix.mul_apply, Matrix.one_apply] at h00
    norm_num at h00
  exact ⟨rfl, rfl, key, key, compound_orders_agree_of_zero_cov S P T2,
    compound_orders_agree_of_zero_cov S P T2⟩

/-- C10 as stated fails: at the sample pose with the sample covariance and the increment
`(1, 0)` the claim's "never the fourth-order result" is false, since `mul` and `operator*`
return there exactly what `compound_4th_order` returns. -/
theorem mul_never_fourth_order_counterexample :
    ¬ (mul sampleSE3 ⟨samplePose, sampleCov⟩ ⟨1, 0⟩
          = compound_2nd_order_SE3Cov sampleSE3 ⟨samplePose, sampleCov⟩ ⟨1, 0⟩ ∧
       operator_mul sampleSE3 ⟨samplePose, sampleCov⟩ ⟨1, 0⟩
          = compound_2nd_order_SE3Cov sampleSE3 ⟨samplePose, sampleCov⟩ ⟨1, 0⟩ ∧
       mul sampleSE3 ⟨samplePose, sampleCov⟩ ⟨1, 0⟩
          ≠ compound_4th_order_SE3Cov sampleSE3 ⟨samplePose, sampleCov⟩ ⟨1, 0⟩ ∧
       operator_mul sampleSE3 ⟨samplePose, sampleCov⟩ ⟨1, 0⟩
          ≠ compound_4th_order_SE3Cov sampleSE3 ⟨samplePose, sampleCov⟩ ⟨1, 0⟩) :=
  fun h => h.2.2.1
    (compound_orders_agree_of_zero_cov sampleSE3 ⟨samplePose, sampleCov⟩ 1)

end Claims2

section Witnesses

open SE3Cov

/-- Witness for C1 at the sample pose and the sample covariance. -/
theorem compound_4th_order_covariance_eq_spec_witness :
    sampleCov.transpose = sampleCov ∧
    (compound_4th_order sampleSE3 ⟨samplePose, sampleCov⟩ 1 sampleCov).covariance_
      = spec_cov_4th_order (sampleSE3.adj samplePose) sampleCov sampleCov :=
  ⟨Matrix.diagonal_transpose _,
    compound_4th_order_covariance_eq_spec sampleSE3 samplePose sampleCov 1 sampleCov
      (Matrix.diagonal_transpose _)⟩

/-- Witness for C3 at the sample pose and the sample covariance. -/
theorem compound_covariance_symmetric_witness :
    sampleCov.transpose = sampleCov ∧
    ((compound_2nd_order sampleSE3 ⟨samplePose, sampleCov⟩ samplePose sampleCov).covariance_).transpose
        = (compound_2nd_order sampleSE3 ⟨samplePose, sampleCov⟩ samplePose sampleCov).covariance_ ∧
    ((compound_4th_order sampleSE3 ⟨samplePose, sampleCov⟩ samplePose sampleCov).covariance_).transpose
        = (compound_4th_order sampleSE3 ⟨samplePose, sampleCov⟩ samplePose sampleCov).covariance_ :=
  ⟨Matrix.diagonal_transpose _,
    compound_covariance_symmetric sampleSE3 samplePose sampleCov samplePose sampleCov
      (Matrix.diagonal_transpose _) (Matrix.diagonal_transpose _)⟩

/-- Witness for C5: the sample pose compounded with the identity pose and the zero
covariance. -/
theorem identity_absorption_witness :
    sampleSE3.mul samplePose 1 = samplePose ∧
    (compound_2nd_order sampleSE3 ⟨samplePose, sampleCov⟩ 1 0).covariance_ = sampleCov ∧
    (compound_4th_order sampleSE3 ⟨samplePose, sampleCov⟩ 1 0).covariance_ = sampleCov ∧
    (compound_2nd_order sampleSE3 ⟨samplePose, sampleCov⟩ 1 0).T = samplePose ∧
    (compound_4th_order sampleSE3 ⟨samplePose, sampleCov⟩ 1 0).T = samplePose :=
  have h := identity_absorption sampleSE3 samplePose sampleCov 1 1
  have e : sampleSE3.mul samplePose 1 = samplePose := Matrix.mul_one samplePose
  ⟨e, h.1, h.2.1, (h.2.2 e).1, (h.2.2 e).2⟩

end Witnesses

section Parts

variable {R : Type} [Field R]

/-! ## The intermediate matrices of `compound_4th_order` -/

/-- The covariance returned by `compound_4th_order` is assembled from the three local
matrices `A_1`, `A_2` and `B` as in lines 107-109 of the source. -/
theorem compound_4th_order_cov_parts {Pose : Type} (S : SE3Class R Pose)
    (self : SE3Cov Pose R) (T2 : Pose) (Sigma2 : Mat6 R) :
    (SE3Cov.compound_4th_order S self T2 Sigma2).covariance_ =
      self.covariance_ + S.adj self.T * Sigma2 * (S.adj self.T).transpose +
        (1 / 12 : R) •
          (compound_4th_order_A_1 self.covariance_
              * (S.adj self.T * Sigma2 * (S.adj self.T).transpose)
            + (S.adj self.T * Sigma2 * (S.adj self.T).transpose)
              * (compound_4th_order_A_1 self.covariance_).transpose
            + compound_4th_order_A_2 (S.adj self.T * Sigma2 * (S.adj self.T).transpose)
              * self.covariance_
            + self.covariance_
              * (compound_4th_order_A_2
                  (S.adj self.T * Sigma2 * (S.adj self.T).transpose)).transpose) +
        (1 / 4 : R) •
          compound_4th_order_B self.covariance_
            (S.adj self.T * Sigma2 * (S.adj self.T).transpose) :=
  rfl

theorem compound_4th_order_A_1_eq (sigma_1 : Mat6 R) :
    compound_4th_order_A_1 sigma_1 = spec_A sigma_1 := by
  simp only [compound_4th_order_A_1, assemble_lower, spec_A]

theorem compound_4th_order_A_2_eq (sigma_2 : Mat6 R) :
    compound_4th_order_A_2 sigma_2 = blocks_A_2 sigma_2 := by
  simp only [compound_4th_order_A_2, assemble_lower, blocks_A_2]

theorem compound_4th_order_B_eq (sigma_1 sigma_2 : Mat6 R) :
    compound_4th_order_B sigma_1 sigma_2 = spec_B sigma_1 sigma_2 := by
  simp only [compound_4th_order_B, assemble_full, spec_B, spec_B_phi_phi, spec_B_rho_phi,
    spec_B_rho_rho]

theorem spec_B_zero_left (N : Mat6 R) : spec_B 0 N = 0 := by
  simp only [spec_B, spec_B_phi_phi, spec_B_rho_phi, spec_B_rho_rho, topLeftCorner_zero,
    bottomLeftCorner_zero, topRightCorner_zero, bottomRightCorner_zero, brackets2_zero_left,
    add_zero, Matrix.transpose_zero, fromCorners_zero]

theorem blocks_tmp_cov_zero_left (N : Mat6 R) : blocks_tmp_cov 0 N = N := by
  simp only [blocks_tmp_cov, spec_A_zero, spec_B_zero_left, Matrix.mul_zero,
    Matrix.zero_mul, Matrix.transpose_zero, add_zero, zero_add, smul_zero]

end Parts

section Claims3

variable {R : Type} [Field R] {Pose : Type}

open SE3Cov

/-- C11. Overload forwarding: the overloads taking a Pose-Uncertainty increment
`Q = (T2, Sigma2)` return what the raw overloads return on `T2` and `Sigma2`. -/
theorem compound_overloads_forward (S : SE3Class R Pose) (P : SE3Cov Pose R) (T2 : Pose)
    (Sigma2 : Mat6 R) :
    compound_2nd_order_SE3Cov S P ⟨T2, Sigma2⟩ = compound_2nd_order S P T2 Sigma2 ∧
    compound_4th_order_SE3Cov S P ⟨T2, Sigma2⟩ = compound_4th_order S P T2 Sigma2 :=
  ⟨rfl, rfl⟩

/-- C12. Concrete scenario: from the identity pose with zero covariance, compounding the
identity increment with covariance `diag(0.01, 0.01, 0.01, 0.04, 0.04, 0.04)` at second
order returns the identity pose and exactly that covariance, given `Adj(identity) = I`
and `compose(identity, identity) = identity`. -/
theorem compound_2nd_order_scenario (S : SE3Class R Pose)
    (hadj : S.adj S.identity = 1) (hmul : S.mul S.identity S.identity = S.identity) :
    compound_2nd_order S ⟨S.identity, 0⟩ S.identity
        (Matrix.diagonal ![0.01, 0.01, 0.01, 0.04, 0.04, 0.04])
      = ⟨S.identity, Matrix.diagonal ![0.01, 0.01, 0.01, 0.04, 0.04, 0.04]⟩ := by
  simp only [compound_2nd_order, hadj, hmul, Matrix.transpose_one, Matrix.one_mul,
    Matrix.mul_one, zero_add]

/-- C13. For symmetric `Sigma1` and symmetric `Sigma2`, the cross-term matrix `B` that
`compound_4th_order` assembles from `Sigma1` and the transported
`Adj * Sigma2 * Adjᵀ` is `[[B_φφ, B_ρφᵀ], [B_ρφ, B_ρρ]]` and is symmetric; its diagonal
blocks `B_φφ` (one two-argument bracket) and `B_ρρ` (a sum of four) are symmetric. -/
theorem compound_4th_order_B_symmetric (Adj Sigma1 Sigma2 : Mat6 R)
    (hSigma1 : Sigma1.transpose = Sigma1) (hSigma2 : Sigma2.transpose = Sigma2) :
    (compound_4th_order_B Sigma1 (Adj * Sigma2 * Adj.transpose)).transpose
        = compound_4th_order_B Sigma1 (Adj * Sigma2 * Adj.transpose) ∧
    topRightCorner (compound_4th_order_B Sigma1 (Adj * Sigma2 * Adj.transpose))
        = (bottomLeftCorner
            (compound_4th_order_B Sigma1 (Adj * Sigma2 * Adj.transpose))).transpose ∧
    topLeftCorner (compound_4th_order_B Sigma1 (Adj * Sigma2 * Adj.transpose))
        = brackets2 (topLeftCorner Sigma1) (topLeftCorner (Adj * Sigma2 * Adj.transpose)) ∧
    (brackets2 (topLeftCorner Sigma1)
        (topLeftCorner (Adj * Sigma2 * Adj.transpose))).transpose
        = brackets2 (topLeftCorner Sigma1) (topLeftCorner (Adj * Sigma2 * Adj.transpose)) ∧
    bottomRightCorner (compound_4th_order_B Sigma1 (Adj * Sigma2 * Adj.transpose))
        = brackets2 (topLeftCorner Sigma1)
            (bottomRightCorner (Adj * Sigma2 * Adj.transpose))
          + brackets2 (topRightCorner Sigma1)
            (bottomLeftCorner (Adj * Sigma2 * Adj.transpose))
          + brackets2 (bottomLeftCorner Sigma1)
            (topRightCorner (Adj * Sigma2 * Adj.transpose))
          + brackets2 (bottomRightCorner Sigma1)
            (topLeftCorner (Adj * Sigma2 * Adj.transpose)) ∧
    (bottomRightCorner
        (compound_4th_order_B Sigma1 (Adj * Sigma2 * Adj.transpose))).transpose
        = bottomRightCorner (compound_4th_order_B Sigma1 (Adj * Sigma2 * Adj.transpose)) := by
  have h2 := transport_symm Adj Sigma2 hSigma2
  have hB := spec_B_symm hSigma1 h2
  rw [compound_4th_order_B_eq]
  refine ⟨hB, ?_, ?_, ?_, ?_, ?_⟩
  · rw [spec_B, topRightCorner_fromCorners, bottomLeftCorner_fromCorners]
  · rw [spec_B, topLeftCorner_fromCorners, spec_B_phi_phi]
  · rw [brackets2_transpose, topLeftCorner_symm hSigma1, topLeftCorner_symm h2]
  · rw [spec_B, bottomRightCorner_fromCorners, spec_B_rho_rho]
  · rw [← bottomRightCorner_transpose, hB]

/-- C14. With zero current covariance every fourth-order correction term vanishes
(`A_1 = 0`, `A_2 * Σ1 + Σ1 * A_2ᵀ = 0`, `B = 0`), so `compound_4th_order` returns the
covariance of `compound_2nd_order`, namely `Adj(T1) * Sigma2 * Adj(T1)ᵀ`; in the concrete
scenario (identity poses, `Adj(identity) = I`) it returns exactly
`diag(0.01, 0.01, 0.01, 0.04, 0.04, 0.04)`. -/
theorem compound_4th_order_zero_covariance (S : SE3Class R Pose) (T1 T2 : Pose)
    (Sigma2 : Mat6 R) :
    compound_4th_order_A_1 (0 : Mat6 R) = 0 ∧
    compound_4th_order_A_2 (S.adj T1 * Sigma2 * (S.adj T1).transpose) * (0 : Mat6 R)
      + (0 : Mat6 R)
        * (compound_4th_order_A_2 (S.adj T1 * Sigma2 * (S.adj T1).transpose)).transpose = 0 ∧
    compound_4th_order_B 0 (S.adj T1 * Sigma2 * (S.adj T1).transpose) = 0 ∧
    (compound_4th_order S ⟨T1, 0⟩ T2 Sigma2).covariance_
      = (compound_2nd_order S ⟨T1, 0⟩ T2 Sigma2).covariance_ ∧
    (compound_4th_order S ⟨T1, 0⟩ T2 Sigma2).covariance_
      = S.adj T1 * Sigma2 * (S.adj T1).transpose ∧
    (S.adj S.identity = 1 →
      (compound_4th_order S ⟨S.identity, 0⟩ S.identity
          (Matrix.diagonal ![0.01, 0.01, 0.01, 0.04, 0.04, 0.04])).covariance_
        = Matrix.diagonal ![0.01, 0.01, 0.01, 0.04, 0.04, 0.04]) := by
  refine ⟨?_, ?_, ?_, ?_, ?_, fun hadj => ?_⟩
  · rw [compound_4th_order_A_1_eq, spec_A_zero]
  · rw [Matrix.mul_zero, Matrix.zero_mul, add_zero]
  · rw [compound_4th_order_B_eq, spec_B_zero_left]
  · rw [compound_4th_order_cov_blocks, compound_2nd_order_cov_blocks,
      blocks_tmp_cov_zero_left, zero_add]
  · rw [compound_4th_order_cov_blocks, blocks_tmp_cov_zero_left]
  · rw [compound_4th_order_cov_blocks, blocks_tmp_cov_zero_left, hadj,
      Matrix.transpose_one, Matrix.one_mul, Matrix.mul_one]

/-- C15. The two-argument `brackets` is symmetric in its arguments, equals
`A*B + B*A - tr(B)•A - tr(A)•B + (tr(A)*tr(B) - tr(A*B))•I`, and commutes with
transposition. -/
theorem brackets2_symmetric_expanded (A B : Mat3 R) :
    brackets2 A B = brackets2 B A ∧
    brackets2 B A = A * B + B * A - B.trace • A - A.trace • B
      + (A.trace * B.trace - (A * B).trace) • (1 : Mat3 R) ∧
    (brackets2 A B).transpose = brackets2 A.transpose B.transpose :=
  ⟨brackets2_comm A B, (brackets2_comm B A).trans (brackets2_expand A B),
    brackets2_transpose A B⟩

end Claims3

section Injectivity

variable {R : Type} [Field R]

theorem trace_brackets (A : Mat3 R) : (brackets A).trace = -2 * A.trace := by
  simp only [brackets, Matrix.trace_add, Matrix.trace_smul, Matrix.trace_one,
    Fintype.card_fin, smul_eq_mul]
  push_cast
  ring

theorem brackets_injective_of_two_ne_zero (h2 : (2 : R) ≠ 0) {A B : Mat3 R}
    (h : brackets A = brackets B) : A = B := by
  have ht : A.trace = B.trace := by
    have h1 := congrArg Matrix.trace h
    rw [trace_brackets, trace_brackets] at h1
    exact mul_left_cancel₀ (neg_ne_zero.mpr h2) h1
  have h3 : (-A.trace) • (1 : Mat3 R) + A = (-A.trace) • (1 : Mat3 R) + B := by
    have h4 := h
    simp only [brackets] at h4
    rw [h4, ht]
  exact add_left_cancel h3

theorem bottomLeftCorner_A_1 (sigma : Mat6 R) :
    bottomLeftCorner (compound_4th_order_A_1 sigma)
      = brackets (bottomLeftCorner sigma + topRightCorner sigma) := by
  rw [compound_4th_order_A_1_eq, spec_A, bottomLeftCorner_fromCorners]

theorem bottomLeftCorner_A_2 (sigma : Mat6 R) :
    bottomLeftCorner (compound_4th_order_A_2 sigma)
      = brackets (bottomLeftCorner sigma + (bottomLeftCorner sigma).transpose) := by
  rw [compound_4th_order_A_2_eq, blocks_A_2, bottomLeftCorner_fromCorners]

end Injectivity

section Ordered

variable {K : Type} [LinearOrderedField K] {Pose : Type}

open SE3Cov

theorem isSymmPSD_add {M N : Mat6 K} (hM : IsSymmPSD M) (hN : IsSymmPSD N) :
    IsSymmPSD (M + N) := by
  refine ⟨by rw [Matrix.transpose_add, hM.1, hN.1], fun x => ?_⟩
  rw [Matrix.add_mulVec, Matrix.dotProduct_add]
  exact add_nonneg (hM.2 x) (hN.2 x)

theorem isSymmPSD_transport (A : Mat6 K) {N : Mat6 K} (hN : IsSymmPSD N) :
    IsSymmPSD (A * N * A.transpose) := by
  refine ⟨transport_symm A N hN.1, fun x => ?_⟩
  have e : Matrix.dotProduct x ((A * N * A.transpose).mulVec x)
      = Matrix.dotProduct (A.transpose.mulVec x) (N.mulVec (A.transpose.mulVec x)) := by
    rw [← Matrix.mulVec_mulVec, ← Matrix.mulVec_mulVec, Matrix.dotProduct_mulVec,
      Matrix.mulVec_transpose]
  rw [e]
  exact hN.2 _

theorem isSymmPSD_diagonal (d : Fin 6 → K) (hd : ∀ i, 0 ≤ d i) :
    IsSymmPSD (Matrix.diagonal d) := by
  refine ⟨Matrix.diagonal_transpose d, fun x => ?_⟩
  simp only [Matrix.mulVec_diagonal, Matrix.dotProduct]
  refine Finset.sum_nonneg fun i _ => ?_
  have e : x i * (d i * x i) = d i * (x i * x i) := by ring
  rw [e]
  exact mul_nonneg (hd i) (mul_self_nonneg _)

/-- Over the reals `IsSymmPSD` is Mathlib's `Matrix.PosSemidef`. -/
theorem isSymmPSD_iff_posSemidef (M : Mat6 ℝ) : IsSymmPSD M ↔ M.PosSemidef := by
  simp [IsSymmPSD, Matrix.PosSemidef, Matrix.IsHermitian]

/-- C16. The one-argument `brackets` is injective, so the bottom-left block of the code's
`A_2`, `brackets(rt + rtᵀ)`, equals the block the `A_1` pattern would give on the same
matrix, `brackets(rt + tr)`, exactly when `tr = rtᵀ`; this holds for every symmetric
matrix, also when its off-diagonal block `rt` is not itself symmetric (the symmetric
matrix `[[0, Nᵀ], [N, 0]]` with `N` the matrix unit `e₀₁` is such a case). -/
theorem brackets_injective_A_2_block (sigma_2 : Mat6 K) :
    Function.Injective (brackets : Mat3 K → Mat3 K) ∧
    bottomLeftCorner (compound_4th_order_A_2 sigma_2)
      = brackets (bottomLeftCorner sigma_2 + (bottomLeftCorner sigma_2).transpose) ∧
    bottomLeftCorner (compound_4th_order_A_1 sigma_2)
      = brackets (bottomLeftCorner sigma_2 + topRightCorner sigma_2) ∧
    (bottomLeftCorner (compound_4th_order_A_2 sigma_2)
        = bottomLeftCorner (compound_4th_order_A_1 sigma_2)
      ↔ topRightCorner sigma_2 = (bottomLeftCorner sigma_2).transpose) ∧
    (sigma_2.transpose = sigma_2 →
      topRightCorner sigma_2 = (bottomLeftCorner sigma_2).transpose) ∧
    (∃ M : Mat6 K, M.transpose = M ∧
      (bottomLeftCorner M).transpose ≠ bottomLeftCorner M ∧
      bottomLeftCorner (compound_4th_order_A_2 M)
        = bottomLeftCorner (compound_4th_order_A_1 M)) := by
  have inj : Function.Injective (brackets : Mat3 K → Mat3 K) :=
    fun A B h => brackets_injective_of_two_ne_zero two_ne_zero h
  have key : ∀ M : Mat6 K, M.transpose = M →
      bottomLeftCorner (compound_4th_order_A_2 M)
        = bottomLeftCorner (compound_4th_order_A_1 M) := by
    intro M hM
    rw [bottomLeftCorner_A_1, bottomLeftCorner_A_2, bottomLeftCorner_symm hM]
  refine ⟨inj, bottomLeftCorner_A_2 sigma_2, bottomLeftCorner_A_1 sigma_2, ?_,
    fun h => (bottomLeftCorner_symm h).symm, ?_⟩
  · rw [bottomLeftCorner_A_1, bottomLeftCorner_A_2]
    constructor
    · intro h
      exact (add_left_cancel (inj h)).symm
    · intro h
      rw [h]
  · let N : Mat3 K := Matrix.of fun i j => if i = 0 ∧ j = 1 then 1 else 0
    have hsym : (fromCorners 0 N.transpose N 0).transpose = fromCorners 0 N.transpose N 0 := by
      rw [transpose_fromCorners, Matrix.transpose_transpose, Matrix.transpose_zero]
    refine ⟨fromCorners 0 N.transpose N 0, hsym, ?_, key _ hsym⟩
    rw [bottomLeftCorner_fromCorners]
    intro h
    have h01 := congrFun (congrFun h 0) 1
    simp [N, Matrix.transpose_apply] at h01

/-- C17. `compound_2nd_order` preserves the covariance invariant: for symmetric positive
semi-definite `Sigma1` and `Sigma2` and any adjoint matrix, the returned covariance
`Sigma1 + Adj(T1) * Sigma2 * Adj(T1)ᵀ` is symmetric positive semi-definite. -/
theorem compound_2nd_order_preserves_psd (S : SE3Class K Pose) (T1 T2 : Pose)
    (Sigma1 Sigma2 : Mat6 K) (hSigma1 : IsSymmPSD Sigma1) (hSigma2 : IsSymmPSD Sigma2) :
    (compound_2nd_order S ⟨T1, Sigma1⟩ T2 Sigma2).covariance_
      = Sigma1 + S.adj T1 * Sigma2 * (S.adj T1).transpose ∧
    IsSymmPSD (compound_2nd_order S ⟨T1, Sigma1⟩ T2 Sigma2).covariance_ :=
  ⟨rfl, isSymmPSD_add hSigma1 (isSymmPSD_transport (S.adj T1) hSigma2)⟩

end Ordered

section VecExt

variable {R : Type}

theorem Mat61_ext_halves {v w : Mat61 R} (h1 : head3 v = head3 w) (h2 : tail3 v = tail3 w) :
    v = w := by
  funext i
  rcases fin6_lo_or_hi i with ⟨k, rfl⟩ | ⟨k, rfl⟩
  · exact congrFun h1 k
  · exact congrFun h2 k

end VecExt

section Wedge

variable {R : Type} [Field R] {Pose : Type}

open SE3Cov

/-! ## `curly_wedge` as an operator on 6-vectors -/

theorem sum_fin6_halves (f : Fin 6 → R) :
    ∑ j : Fin 6, f j = ∑ k : Fin 3, f (lo k) + ∑ k : Fin 3, f (hi k) := by
  rw [Fin.sum_univ_six, Fin.sum_univ_three, Fin.sum_univ_three]
  have e0 : lo 0 = 0 := rfl
  have e1 : lo 1 = 1 := rfl
  have e2 : lo 2 = 2 := rfl
  have e3 : hi 0 = 3 := rfl
  have e4 : hi 1 = 4 := rfl
  have e5 : hi 2 = 5 := rfl
  rw [e0, e1, e2, e3, e4, e5]
  ring

theorem head3_mulVec (M : Mat6 R) (v : Mat61 R) :
    head3 (M.mulVec v)
      = (topLeftCorner M).mulVec (head3 v) + (topRightCorner M).mulVec (tail3 v) := by
  funext k
  simp only [head3, tail3, Matrix.mulVec, Matrix.dotProduct, Pi.add_apply, topLeftCorner,
    topRightCorner, Matrix.of_apply]
  exact sum_fin6_halves _

theorem tail3_mulVec (M : Mat6 R) (v : Mat61 R) :
    tail3 (M.mulVec v)
      = (bottomLeftCorner M).mulVec (head3 v) + (bottomRightCorner M).mulVec (tail3 v) := by
  funext k
  simp only [head3, tail3, Matrix.mulVec, Matrix.dotProduct, Pi.add_apply, bottomLeftCorner,
    bottomRightCorner, Matrix.of_apply]
  exact sum_fin6_halves _

theorem curly_wedge_eq_fromCorners (hat : Mat31 R → Mat3 R) (xi : Mat61 R) :
    curly_wedge hat xi = fromCorners (hat (head3 xi)) 0 (hat (tail3 xi)) (hat (head3 xi)) := by
  simp only [curly_wedge, assemble_wedge]

theorem hat3_mulVec (u v : Mat31 R) : (hat3 u).mulVec v = crossProduct u v := by
  funext i
  fin_cases i <;>
    simp [hat3, Matrix.mulVec, Matrix.dotProduct, Fin.sum_univ_three, cross_apply] <;> ring

theorem hat_eq_hat3 (hat : Mat31 R → Mat3 R)
    (hhat : ∀ u v : Mat31 R, (hat u).mulVec v = crossProduct u v) : hat = hat3 := by
  funext u
  apply Matrix.toLin'.injective
  apply LinearMap.ext
  intro v
  rw [Matrix.toLin'_apply, Matrix.toLin'_apply, hhat, hat3_mulVec]

theorem hat3_add (u v : Mat31 R) : hat3 (u + v) = hat3 u + hat3 v := by
  ext i j
  fin_cases i <;> fin_cases j <;> simp [hat3] <;> ring

theorem hat3_smul (a : R) (u : Mat31 R) : hat3 (a • u) = a • hat3 u := by
  ext i j
  fin_cases i <;> fin_cases j <;> simp [hat3]

theorem fromCorners_add (X Y Z W X' Y' Z' W' : Mat3 R) :
    fromCorners (X + X') (Y + Y') (Z + Z') (W + W')
      = fromCorners X Y Z W + fromCorners X' Y' Z' W' := by
  apply Mat6_ext_corners
  · rw [topLeftCorner_fromCorners]
    show _ = topLeftCorner (fromCorners X Y Z W) + topLeftCorner (fromCorners X' Y' Z' W')
    rw [topLeftCorner_fromCorners, topLeftCorner_fromCorners]
  · rw [topRightCorner_fromCorners]
    show _ = topRightCorner (fromCorners X Y Z W) + topRightCorner (fromCorners X' Y' Z' W')
    rw [topRightCorner_fromCorners, topRightCorner_fromCorners]
  · rw [bottomLeftCorner_fromCorners]
    show _ = bottomLeftCorner (fromCorners X Y Z W)
      + bottomLeftCorner (fromCorners X' Y' Z' W')
    rw [bottomLeftCorner_fromCorners, bottomLeftCorner_fromCorners]
  · rw [bottomRightCorner_fromCorners]
    show _ = bottomRightCorner (fromCorners X Y Z W)
      + bottomRightCorner (fromCorners X' Y' Z' W')
    rw [bottomRightCorner_fromCorners, bottomRightCorner_fromCorners]

theorem curly_wedge_hat3_mulVec_halves (x y : Mat61 R) :
    head3 ((curly_wedge hat3 x).mulVec y) = crossProduct (head3 x) (head3 y) ∧
    tail3 ((curly_wedge hat3 x).mulVec y)
      = crossProduct (tail3 x) (head3 y) + crossProduct (head3 x) (tail3 y) := by
  rw [head3_mulVec, tail3_mulVec, curly_wedge_eq_fromCorners, topLeftCorner_fromCorners,
    topRightCorner_fromCorners, bottomLeftCorner_fromCorners, bottomRightCorner_fromCorners,
    Matrix.zero_mulVec, add_zero, hat3_mulVec, hat3_mulVec, hat3_mulVec]
  exact ⟨rfl, rfl⟩

theorem curly_wedge_hat3_antisymm (x y : Mat61 R) :
    (curly_wedge hat3 x).mulVec y = -((curly_wedge hat3 y).mulVec x) := by
  apply Mat61_ext_halves
  · show _ = -(head3 ((curly_wedge hat3 y).mulVec x))
    rw [(curly_wedge_hat3_mulVec_halves x y).1, (curly_wedge_hat3_mulVec_halves y x).1,
      cross_anticomm]
  · show _ = -(tail3 ((curly_wedge hat3 y).mulVec x))
    rw [(curly_wedge_hat3_mulVec_halves x y).2, (curly_wedge_hat3_mulVec_halves y x).2,
      neg_add, cross_anticomm, cross_anticomm, add_comm]

theorem curly_wedge_hat3_linear (a b : R) (x y : Mat61 R) :
    curly_wedge hat3 (a • x + b • y) = a • curly_wedge hat3 x + b • curly_wedge hat3 y := by
  have hh : head3 (a • x + b • y) = a • head3 x + b • head3 y := rfl
  have ht : tail3 (a • x + b • y) = a • tail3 x + b • tail3 y := rfl
  rw [curly_wedge_eq_fromCorners, curly_wedge_eq_fromCorners, curly_wedge_eq_fromCorners,
    hh, ht, hat3_add, hat3_add, hat3_smul, hat3_smul, hat3_smul, hat3_smul,
    ← fromCorners_smul, ← fromCorners_smul, ← fromCorners_add, smul_zero, smul_zero,
    zero_add]

/-- C18. Second-order compounding is associative when the pose composition is
associative and the adjoint is multiplicative: `(P1 * P2) * P3` and `P1 * (P2 * P3)`
have the same pose and the same covariance. -/
theorem operator_mul_assoc (S : SE3Class R Pose)
    (hassoc : ∀ Ta Tb Tc : Pose, S.mul (S.mul Ta Tb) Tc = S.mul Ta (S.mul Tb Tc))
    (hadj : ∀ Ta Tb : Pose, S.adj (S.mul Ta Tb) = S.adj Ta * S.adj Tb)
    (P1 P2 P3 : SE3Cov Pose R) :
    operator_mul S (operator_mul S P1 P2) P3 = operator_mul S P1 (operator_mul S P2 P3) := by
  simp only [operator_mul, compound_2nd_order_SE3Cov, compound_2nd_order, cov, hassoc, hadj,
    Matrix.transpose_mul, Matrix.mul_add, Matrix.add_mul, Matrix.mul_assoc, add_assoc]

/-- C19. With `hat` the standard skew-symmetric generator (`hat(u) * v = u × v`),
`curly_wedge` is an antisymmetric bracket on 6-vectors:
`curly_wedge(x) * y = -(curly_wedge(y) * x)`, in particular `curly_wedge(x) * x = 0`; and
`curly_wedge` is linear in its argument. -/
theorem curly_wedge_antisymmetric (hat : Mat31 R → Mat3 R)
    (hhat : ∀ u v : Mat31 R, (hat u).mulVec v = crossProduct u v)
    (x y : Mat61 R) (a b : R) :
    (curly_wedge hat x).mulVec y = -((curly_wedge hat y).mulVec x) ∧
    (curly_wedge hat x).mulVec x = 0 ∧
    curly_wedge hat (a • x + b • y) = a • curly_wedge hat x + b • curly_wedge hat y := by
  rw [hat_eq_hat3 hat hhat]
  refine ⟨curly_wedge_hat3_antisymm x y, ?_, curly_wedge_hat3_linear a b x y⟩
  apply Mat61_ext_halves
  · rw [(curly_wedge_hat3_mulVec_halves x x).1, cross_self]
    rfl
  · rw [(curly_wedge_hat3_mulVec_halves x x).2, ← cross_anticomm (head3 x) (tail3 x),
      neg_add_cancel]
    rfl

end Wedge

section Witnesses2

open SE3Cov

theorem isSymmPSD_sampleCov : IsSymmPSD sampleCov :=
  isSymmPSD_diagonal _ (fun i => by fin_cases i <;> norm_num)

/-- Witness for C12 on the sample `SE3` interface. -/
theorem compound_2nd_order_scenario_witness :
    sampleSE3.adj sampleSE3.identity = 1 ∧
    sampleSE3.mul sampleSE3.identity sampleSE3.identity = sampleSE3.identity ∧
    compound_2nd_order sampleSE3 ⟨sampleSE3.identity, 0⟩ sampleSE3.identity
        (Matrix.diagonal ![0.01, 0.01, 0.01, 0.04, 0.04, 0.04])
      = ⟨sampleSE3.identity, Matrix.diagonal ![0.01, 0.01, 0.01, 0.04, 0.04, 0.04]⟩ :=
  ⟨rfl, Matrix.mul_one 1, compound_2nd_order_scenario sampleSE3 rfl (Matrix.mul_one 1)⟩

/-- Witness for C13 at the sample pose and the sample covariance. -/
theorem compound_4th_order_B_symmetric_witness :
    sampleCov.transpose = sampleCov ∧
    (compound_4th_order_B sampleCov (samplePose * sampleCov * samplePose.transpose)).transpose
      = compound_4th_order_B sampleCov (samplePose * sampleCov * samplePose.transpose) :=
  ⟨Matrix.diagonal_transpose _,
    (compound_4th_order_B_symmetric samplePose sampleCov sampleCov
      (Matrix.diagonal_transpose _) (Matrix.diagonal_transpose _)).1⟩

/-- Witness for C14 on the sample `SE3` interface. -/
theorem compound_4th_order_zero_covariance_witness :
    sampleSE3.adj sampleSE3.identity = 1 ∧
    (compound_4th_order sampleSE3 ⟨sampleSE3.identity, 0⟩ sampleSE3.identity
        (Matrix.diagonal ![0.01, 0.01, 0.01, 0.04, 0.04, 0.04])).covariance_
      = Matrix.diagonal ![0.01, 0.01, 0.01, 0.04, 0.04, 0.04] :=
  ⟨rfl, (compound_4th_order_zero_covariance sampleSE3 samplePose 1 sampleCov).2.2.2.2.2 rfl⟩

/-- Witness for C16 at the sample covariance. -/
theorem brackets_injective_A_2_block_witness :
    sampleCov.transpose = sampleCov ∧
    topRightCorner sampleCov = (bottomLeftCorner sampleCov).transpose :=
  ⟨Matrix.diagonal_transpose _,
    (brackets_injective_A_2_block sampleCov).2.2.2.2.1 (Matrix.diagonal_transpose _)⟩

/-- Witness for C17 at the sample pose and the sample covariance. -/
theorem compound_2nd_order_preserves_psd_witness :
    IsSymmPSD sampleCov ∧
    IsSymmPSD
      (compound_2nd_order sampleSE3 ⟨samplePose, sampleCov⟩ samplePose sampleCov).covariance_ :=
  ⟨isSymmPSD_sampleCov,
    (compound_2nd_order_preserves_psd sampleSE3 samplePose samplePose sampleCov sampleCov
      isSymmPSD_sampleCov isSymmPSD_sampleCov).2⟩

/-- Witness for C18 on the sample `SE3` interface, whose composition is the matrix product
and whose adjoint is the identity map. -/
theorem operator_mul_assoc_witness :
    (∀ Ta Tb Tc : Mat6 ℚ,
      sampleSE3.mul (sampleSE3.mul Ta Tb) Tc = sampleSE3.mul Ta (sampleSE3.mul Tb Tc)) ∧
    (∀ Ta Tb : Mat6 ℚ, sampleSE3.adj (sampleSE3.mul Ta Tb) = sampleSE3.adj Ta * sampleSE3.adj Tb) ∧
    operator_mul sampleSE3 (operator_mul sampleSE3 ⟨samplePose, sampleCov⟩ ⟨samplePose, 1⟩)
        ⟨1, sampleCov⟩
      = operator_mul sampleSE3 ⟨samplePose, sampleCov⟩
          (operator_mul sampleSE3 ⟨samplePose, 1⟩ ⟨1, sampleCov⟩) :=
  ⟨fun Ta Tb Tc => Matrix.mul_assoc Ta Tb Tc, fun _ _ => rfl,
    operator_mul_assoc sampleSE3 (fun Ta Tb Tc => Matrix.mul_assoc Ta Tb Tc) (fun _ _ => rfl)
      ⟨samplePose, sampleCov⟩ ⟨samplePose, 1⟩ ⟨1, sampleCov⟩⟩

/-- Witness for C19 with the standard `hat3` and two sample 6-vectors. -/
theorem curly_wedge_antisymmetric_witness :
    (∀ u v : Mat31 ℚ, (hat3 u).mulVec v = crossProduct u v) ∧
    (curly_wedge hat3 ![1, 2, 3, 4, 5, 6]).mulVec ![0, 1, 0, -2, 0, 7]
      = -((curly_wedge hat3 ![0, 1, 0, -2, 0, 7]).mulVec (![1, 2, 3, 4, 5, 6] : Mat61 ℚ)) ∧
    (curly_wedge hat3 ![1, 2, 3, 4, 5, 6]).mulVec (![1, 2, 3, 4, 5, 6] : Mat61 ℚ) = 0 :=
  have h := curly_wedge_antisymmetric hat3 hat3_mulVec
    (![1, 2, 3, 4, 5, 6] : Mat61 ℚ) ![0, 1, 0, -2, 0, 7] 1 1
  ⟨hat3_mulVec, h.1, h.2.1⟩

end Witnesses2

end mrob
